import Mathlib

/-!
Verification development for the task-management web application.

The backend routes live in packages/backend/src/app.js; the client state
hook lives in packages/frontend/src/hooks/useTasks.js.  Each definition
below is a shallow embedding of one piece of that code:

* task records are modelled at the JSON boundary (tags as a list, the
  completed flag as a Bool), which is the shape every route returns after
  converting the SQLite row;
* timestamps and identifiers are opaque strings; the wall clock value that
  the handlers read via new Date().toISOString() is passed in explicitly
  as a parameter named now;
* SQLite TEXT comparison (memcmp on bytes) is modelled by code point
  comparison on the character list of the string, which agrees with it on
  the ASCII strings the application stores;
* the table is a list of rows in insertion order; SELECT by primary key is
  find?, UPDATE ... WHERE id = ? maps over the rows, DELETE filters them.
-/

deriving instance DecidableEq for Except

namespace TodoApp

/-- Task record as returned over the JSON boundary (app.js rows after the
tags JSON.parse and the Boolean coercion of completed). -/
structure Task where
  id : String
  title : String
  description : String
  dueDate : Option String
  priority : String
  tags : List String
  completed : Bool
  createdAt : String
  updatedAt : String
deriving Repr, DecidableEq

/-- Error responses of the API: 400 with a message, or 404. -/
inductive ApiError where
  | validation (msg : String)
  | notFound
deriving Repr, DecidableEq

/-- Whitespace recognised by the JavaScript String trim used on titles and
descriptions (restricted to the ASCII whitespace the app encounters). -/
def isJsWs (c : Char) : Bool :=
  c == ' ' || c == '\t' || c == '\n' || c == '\r'

/-- Characters of a string after removing leading and trailing whitespace. -/
def trimChars (cs : List Char) : List Char :=
  ((cs.dropWhile isJsWs).reverse.dropWhile isJsWs).reverse

/-- Model of the JavaScript title.trim() call in the create and update
handlers. -/
def jsTrim (s : String) : String :=
  String.mk (trimChars s.data)

/-- Decimal digit test on a character, by code point. -/
def isDig (c : Char) : Bool :=
  decide (48 ≤ c.toNat ∧ c.toNat ≤ 57)

/-- Numeric value of a decimal digit character. -/
def digitVal (c : Char) : Nat := c.toNat - 48

/-- Modelled from the JavaScript Date.parse used by the handlers to
validate due dates, restricted to the ISO-8601 shapes the application
exchanges: YYYY-MM-DD optionally followed by a T and a time part.  The
string not-a-date is rejected, every ISO timestamp the app produces is
accepted. -/
def isValidDate (s : String) : Bool :=
  match s.data with
  | y1 :: y2 :: y3 :: y4 :: s1 :: m1 :: m2 :: s2 :: d1 :: d2 :: rest =>
    isDig y1 && isDig y2 && isDig y3 && isDig y4 &&
    (s1 == '-') && isDig m1 && isDig m2 && (s2 == '-') && isDig d1 && isDig d2 &&
    (let mo := 10 * digitVal m1 + digitVal m2
     let da := 10 * digitVal d1 + digitVal d2
     decide (1 ≤ mo ∧ mo ≤ 12 ∧ 1 ≤ da ∧ da ≤ 31)) &&
    (rest.isEmpty || (rest.headD ' ' == 'T'))
  | _ => false

/-- The priority enum accepted by the create and update handlers. -/
def validPriorities : List String := ["low", "medium", "high"]

/-- ASCII lower casing, as applied by the case-insensitive SQLite LIKE. -/
def lchar (c : Char) : Char := c.toLower

/-- Model of the SQLite LIKE operator (pattern, then text): the percent
sign matches any sequence (tried as every suffix of the text), the
underscore matches one character, anything else matches itself up to
ASCII case. -/
def likeMatch : List Char → List Char → Bool
  | [], hay => hay.isEmpty
  | p :: ps, hay =>
    if p = '%' then hay.tails.any (fun suf => likeMatch ps suf)
    else
      match hay with
      | [] => false
      | h :: hs => if p = '_' then likeMatch ps hs else (lchar p == lchar h) && likeMatch ps hs

/-- Model of the search clause of GET /api/tasks: the column value is
matched against the LIKE pattern percent, search string, percent. -/
def likeContains (srch hay : String) : Bool :=
  likeMatch ('%' :: (srch.data ++ ['%'])) hay.data

/-- Case-insensitive "needle starts the text" on character lists.  This is
the vocabulary of the specification, independent of LIKE. -/
def ciStartsWith : List Char → List Char → Bool
  | [], _ => true
  | _ :: _, [] => false
  | n :: ns, h :: hs => (lchar n == lchar h) && ciStartsWith ns hs

/-- Case-insensitive substring containment on character lists. -/
def ciContains (needle : List Char) : List Char → Bool
  | [] => needle.isEmpty
  | h :: hs => ciStartsWith needle (h :: hs) || ciContains needle hs

/-- Case-insensitive substring containment on strings, the relation named
by the specification for search. -/
def containsCI (needle hay : String) : Bool :=
  ciContains needle.data hay.data

/-- Query parameters of GET /api/tasks; none models an absent parameter. -/
structure ListQuery where
  status : Option String
  priority : Option String
  search : Option String
  sortBy : Option String
deriving Repr, DecidableEq

/-- Status filter of GET /api/tasks. -/
def matchesStatus (st : Option String) (t : Task) : Bool :=
  if st == some "active" then !t.completed
  else if st == some "completed" then t.completed
  else true

/-- Priority filter of GET /api/tasks; a falsy (absent or empty) value
applies no filter. -/
def matchesPriority (pr : Option String) (t : Task) : Bool :=
  match pr with
  | none => true
  | some p => if p == "" then true else t.priority == p

/-- Search filter of GET /api/tasks; a falsy (absent or empty) value
applies no filter, otherwise title or description must match the LIKE
pattern built from the search string. -/
def matchesSearch (se : Option String) (t : Task) : Bool :=
  match se with
  | none => true
  | some srch =>
    if srch == "" then true
    else likeContains srch t.title || likeContains srch t.description

/-- Conjunction of the three WHERE clauses of GET /api/tasks. -/
def matchesFilters (q : ListQuery) (t : Task) : Bool :=
  matchesStatus q.status t && matchesPriority q.priority t && matchesSearch q.search t

/-- Code point comparison of character lists; agrees with the memcmp
collation SQLite applies to TEXT on the ASCII data the app stores. -/
def cmpChars : List Char → List Char → Ordering
  | [], [] => .eq
  | [], _ :: _ => .lt
  | _ :: _, [] => .gt
  | a :: as, b :: bs =>
    if a = b then cmpChars as bs
    else if a.toNat < b.toNat then .lt else .gt

/-- Comparison of natural numbers as an Ordering. -/
def cmpNat (a b : Nat) : Ordering :=
  if a < b then .lt else if b < a then .gt else .eq

/-- Strict string order used for due dates and timestamps. -/
def strLt (a b : String) : Prop := cmpChars a.data b.data = .lt

/-- Reflexive string order used for due dates and timestamps. -/
def strLe (a b : String) : Prop := (cmpChars a.data b.data).isLE = true

instance (a b : String) : Decidable (strLt a b) :=
  inferInstanceAs (Decidable (cmpChars a.data b.data = .lt))

instance (a b : String) : Decidable (strLe a b) :=
  inferInstanceAs (Decidable ((cmpChars a.data b.data).isLE = true))

/-- Combined effect of the two SQL keys CASE WHEN dueDate IS NULL THEN 1
ELSE 0 END followed by dueDate ASC: non-null due dates ascending, null due
dates last. -/
def cmpOptStr : Option String → Option String → Ordering
  | none, none => .eq
  | none, some _ => .gt
  | some _, none => .lt
  | some a, some b => cmpChars a.data b.data

/-- Rank of the SQL expression CASE priority WHEN high THEN 1 WHEN medium
THEN 2 WHEN low THEN 3 END; any other value yields SQL NULL, which sorts
first in ascending order, hence rank 0. -/
def priorityRank (p : String) : Nat :=
  if p = "high" then 1 else if p = "medium" then 2 else if p = "low" then 3 else 0

/-- ORDER BY clause of the default sort of GET /api/tasks. -/
def cmpTaskDefault (a b : Task) : Ordering :=
  (cmpOptStr a.dueDate b.dueDate).then
    ((cmpNat (priorityRank a.priority) (priorityRank b.priority)).then
      (cmpChars b.createdAt.data a.createdAt.data))

/-- ORDER BY clause of sortBy=dueDate. -/
def cmpTaskDueDate (a b : Task) : Ordering :=
  cmpOptStr a.dueDate b.dueDate

/-- ORDER BY clause of sortBy=priority. -/
def cmpTaskPriority (a b : Task) : Ordering :=
  cmpNat (priorityRank a.priority) (priorityRank b.priority)

/-- ORDER BY clause of sortBy=createdAt (newest first). -/
def cmpTaskCreatedAt (a b : Task) : Ordering :=
  cmpChars b.createdAt.data a.createdAt.data

/-- Order relation of the default sort. -/
def taskLeDefault (a b : Task) : Prop := (cmpTaskDefault a b).isLE = true

/-- Order relation of sortBy=dueDate. -/
def taskLeDueDate (a b : Task) : Prop := (cmpTaskDueDate a b).isLE = true

/-- Order relation of sortBy=priority. -/
def taskLePriority (a b : Task) : Prop := (cmpTaskPriority a b).isLE = true

/-- Order relation of sortBy=createdAt. -/
def taskLeCreatedAt (a b : Task) : Prop := (cmpTaskCreatedAt a b).isLE = true

instance : DecidableRel taskLeDefault :=
  fun a b => inferInstanceAs (Decidable ((cmpTaskDefault a b).isLE = true))

instance : DecidableRel taskLeDueDate :=
  fun a b => inferInstanceAs (Decidable ((cmpTaskDueDate a b).isLE = true))

instance : DecidableRel taskLePriority :=
  fun a b => inferInstanceAs (Decidable ((cmpTaskPriority a b).isLE = true))

instance : DecidableRel taskLeCreatedAt :=
  fun a b => inferInstanceAs (Decidable ((cmpTaskCreatedAt a b).isLE = true))

/-- Sorting step of GET /api/tasks: the switch on sortBy, whose default
branch (including an absent parameter, which express defaults to the
string default) applies the combined due date, priority, createdAt
order. -/
def sortTasks (sortBy : Option String) (l : List Task) : List Task :=
  match sortBy.getD "default" with
  | "dueDate" => l.insertionSort taskLeDueDate
  | "priority" => l.insertionSort taskLePriority
  | "createdAt" => l.insertionSort taskLeCreatedAt
  | _ => l.insertionSort taskLeDefault

/-- GET /api/tasks: filter by status, priority and search, then sort. -/
def getTasks (q : ListQuery) (s : List Task) : List Task :=
  sortTasks q.sortBy (s.filter (matchesFilters q))

/-- Request body of POST /api/tasks; an outer none models an absent field
(so that the JavaScript destructuring defaults apply), and for dueDate the
inner Option distinguishes an explicit null from a string. -/
structure CreateReq where
  title : Option String
  description : Option String
  dueDate : Option (Option String)
  priority : Option String
  tags : Option (List String)
deriving Repr, DecidableEq

/-- POST /api/tasks.  Validation in handler order: missing, empty or
whitespace-only title; priority outside the enum; then the due date check,
which the handler guards by JavaScript truthiness, so it only fires for a
non-null, non-empty string.  On success the inserted row (title and
description trimmed, completed 0, both timestamps set to now) is appended
to the table and returned. -/
def createTask (req : CreateReq) (id now : String) (s : List Task) :
    Except ApiError (Task × List Task) :=
  match req.title with
  | none => .error (.validation "Task title is required and cannot be empty")
  | some title =>
    if jsTrim title == "" then
      .error (.validation "Task title is required and cannot be empty")
    else if !(validPriorities.contains (req.priority.getD "medium")) then
      .error (.validation "Priority must be low, medium, or high")
    else if (match req.dueDate.getD none with
             | some dd => dd != "" && !(isValidDate dd)
             | none => false) then
      .error (.validation "Invalid due date format")
    else
      let t : Task :=
        { id := id
          title := jsTrim title
          description := jsTrim (req.description.getD "")
          dueDate := req.dueDate.getD none
          priority := req.priority.getD "medium"
          tags := req.tags.getD []
          completed := false
          createdAt := now
          updatedAt := now }
      .ok (t, s ++ [t])

/-- Request body of PUT /api/tasks/:id; none models an absent field, and
for dueDate the inner Option distinguishes an explicit null (which clears
the date) from a string. -/
structure UpdateReq where
  title : Option String
  description : Option String
  dueDate : Option (Option String)
  priority : Option String
  tags : Option (List String)
  completed : Option Bool
deriving Repr, DecidableEq

/-- Dynamic SET clause of PUT /api/tasks/:id: every supplied field is
written (title and description trimmed), every absent field is left alone,
and updatedAt is always rewritten to now. -/
def applyUpdate (req : UpdateReq) (now : String) (t : Task) : Task :=
  { t with
    title := match req.title with | some x => jsTrim x | none => t.title
    description := match req.description with | some x => jsTrim x | none => t.description
    dueDate := match req.dueDate with | some d => d | none => t.dueDate
    priority := match req.priority with | some p => p | none => t.priority
    tags := match req.tags with | some tg => tg | none => t.tags
    completed := match req.completed with | some c => c | none => t.completed
    updatedAt := now }

/-- PUT /api/tasks/:id.  The existence check runs first; validation of the
supplied fields follows in handler order; then the UPDATE is applied to
the rows with the given id and the updated row is returned (the handler
re-reads it by primary key, which is the image of the row the existence
check found). -/
def updateTask (id : String) (req : UpdateReq) (now : String) (s : List Task) :
    Except ApiError (Task × List Task) :=
  match s.find? (fun t => t.id == id) with
  | none => .error .notFound
  | some t0 =>
    if (match req.title with | some x => jsTrim x == "" | none => false) then
      .error (.validation "Task title cannot be empty")
    else if (match req.priority with
             | some p => !(validPriorities.contains p)
             | none => false) then
      .error (.validation "Priority must be low, medium, or high")
    else if (match req.dueDate with
             | some (some dd) => !(isValidDate dd)
             | _ => false) then
      .error (.validation "Invalid due date format")
    else
      .ok (applyUpdate req now t0,
           s.map (fun t => if t.id == id then applyUpdate req now t else t))

/-- PATCH /api/tasks/:id/toggle: flip the completed flag of the found row
and rewrite its updatedAt; 404 when the id is absent. -/
def toggleTask (id now : String) (s : List Task) :
    Except ApiError (Task × List Task) :=
  match s.find? (fun t => t.id == id) with
  | none => .error .notFound
  | some t0 =>
    .ok ({ t0 with completed := !t0.completed, updatedAt := now },
         s.map (fun t =>
           if t.id == id then { t with completed := !t0.completed, updatedAt := now } else t))

/-- DELETE /api/tasks/:id: 404 when the id is absent, otherwise the rows
with that id are removed and the id echoed back (the changes counter of
the DELETE is positive because the existence check just found a row). -/
def deleteTask (id : String) (s : List Task) :
    Except ApiError (String × List Task) :=
  match s.find? (fun t => t.id == id) with
  | none => .error .notFound
  | some _ => .ok (id, s.filter (fun t => !(t.id == id)))

/-- POST /api/tasks/bulk.  The id list is checked first (it must be a
present, non-empty array), then the switch on action runs one UPDATE or
DELETE per listed id; ids without a matching row change nothing.  The
reported count is the length of the requested id list. -/
def bulkAction (action : String) (taskIds : Option (List String)) (now : String)
    (s : List Task) : Except ApiError (Nat × List Task) :=
  match taskIds with
  | none => .error (.validation "taskIds must be a non-empty array")
  | some ids =>
    if ids.isEmpty then
      .error (.validation "taskIds must be a non-empty array")
    else if action == "complete" then
      .ok (ids.length,
           ids.foldl (fun st i =>
             st.map (fun t =>
               if t.id == i then { t with completed := true, updatedAt := now } else t)) s)
    else if action == "uncomplete" then
      .ok (ids.length,
           ids.foldl (fun st i =>
             st.map (fun t =>
               if t.id == i then { t with completed := false, updatedAt := now } else t)) s)
    else if action == "delete" then
      .ok (ids.length,
           ids.foldl (fun st i => st.filter (fun t => !(t.id == i))) s)
    else
      .error (.validation "Invalid action. Must be complete, uncomplete, or delete")

/-- Observable steps of one mutation of the client state hook useTasks:
a setTasks call that applies the mutation locally, the awaited API client
call, and a setTasks call that installs the server response. -/
inductive UiStep where
  | localUpdate
  | apiRequest
  | localReconcile
deriving Repr, DecidableEq

/-- Step order of addTask in useTasks.js: the createTask API call is
awaited first, and only then is the returned task prepended to local
state. -/
def addTaskTrace : List UiStep := [.apiRequest, .localUpdate]

/-- Step order of updateTaskData in useTasks.js: optimistic patch, API
call, then reconcile with the server copy. -/
def updateTaskTrace : List UiStep := [.localUpdate, .apiRequest, .localReconcile]

/-- Step order of toggleTaskCompletion in useTasks.js: optimistic flip,
API call, then reconcile with the server copy. -/
def toggleTaskTrace : List UiStep := [.localUpdate, .apiRequest, .localReconcile]

/-- Step order of removeTask in useTasks.js: optimistic removal, then the
API call. -/
def deleteTaskTrace : List UiStep := [.localUpdate, .apiRequest]

/-- Position of the first occurrence of a step in a trace. -/
def firstIdx (x : UiStep) : List UiStep → Option Nat
  | [] => none
  | y :: ys => if y = x then some 0 else (firstIdx x ys).map (· + 1)

/-- The trace applies a local state change strictly before it issues the
API request. -/
def localBeforeApi (tr : List UiStep) : Bool :=
  match firstIdx .localUpdate tr, firstIdx .apiRequest tr with
  | some i, some j => decide (i < j)
  | _, _ => false

/-- Local state change addTask performs once the create call succeeded:
the server-returned task is prepended to the previous collection. -/
def addTaskOnSuccess (serverTask : Task) (prev : List Task) : List Task :=
  serverTask :: prev

/-! ## Comparator theory

The ORDER BY clauses are modelled by Ordering valued comparators; the
lemmas below give the transitivity and totality that sortedness of the
sorting routine requires. -/

theorem char_toNat_inj {a b : Char} (h : a.toNat = b.toNat) : a = b := by
  apply Char.ext
  have hv : a.val.toNat = b.val.toNat := h
  exact UInt32.toNat.inj hv

theorem ordThen_lt (o : Ordering) : (Ordering.lt).then o = .lt := rfl

theorem ordThen_eq (o : Ordering) : (Ordering.eq).then o = o := rfl

theorem ordThen_gt (o : Ordering) : (Ordering.gt).then o = .gt := rfl

theorem ordThen_swap (o1 o2 : Ordering) : (o1.then o2).swap = o1.swap.then o2.swap := by
  cases o1 <;> cases o2 <;> rfl

theorem cmpChars_eq_iff (x : List Char) : ∀ y, cmpChars x y = .eq ↔ x = y := by
  induction x with
  | nil => intro y; cases y <;> simp [cmpChars]
  | cons a as ih =>
    intro y
    cases y with
    | nil => simp [cmpChars]
    | cons b bs =>
      by_cases hab : a = b
      · subst hab; simp [cmpChars, ih bs]
      · by_cases hlt : a.toNat < b.toNat <;> simp [cmpChars, hab, hlt]

theorem cmpChars_symm (x : List Char) : ∀ y, cmpChars y x = (cmpChars x y).swap := by
  induction x with
  | nil => intro y; cases y <;> simp [cmpChars, Ordering.swap]
  | cons a as ih =>
    intro y
    cases y with
    | nil => simp [cmpChars, Ordering.swap]
    | cons b bs =>
      by_cases hab : a = b
      · subst hab; simp [cmpChars, ih bs]
      · have hba : ¬ b = a := fun h => hab h.symm
        have hne : a.toNat ≠ b.toNat := fun h => hab (char_toNat_inj h)
        by_cases hlt : a.toNat < b.toNat
        · have hnlt : ¬ b.toNat < a.toNat := by omega
          simp [cmpChars, hab, hba, hlt, hnlt, Ordering.swap]
        · have hgt : b.toNat < a.toNat := by omega
          simp [cmpChars, hab, hba, hlt, hgt, Ordering.swap]

theorem lt_of_ite_toNat {p : Prop} [Decidable p]
    (h : (if p then Ordering.lt else Ordering.gt) = Ordering.lt) : p := by
  by_cases hp : p
  · exact hp
  · rw [if_neg hp] at h; cases h

theorem cmpChars_lt_trans : ∀ (x y z : List Char),
    cmpChars x y = .lt → cmpChars y z = .lt → cmpChars x z = .lt := by
  intro x
  induction x with
  | nil =>
    intro y z h1 h2
    cases y with
    | nil => simp [cmpChars] at h1
    | cons b bs =>
      cases z with
      | nil => simp [cmpChars] at h2
      | cons c cs => simp [cmpChars]
  | cons a as ih =>
    intro y z h1 h2
    cases y with
    | nil => simp [cmpChars] at h1
    | cons b bs =>
      cases z with
      | nil => simp [cmpChars] at h2
      | cons c cs =>
        rw [cmpChars] at h1 h2 ⊢
        by_cases hab : a = b
        · rw [if_pos hab] at h1
          by_cases hbc : b = c
          · have hac : a = c := hab.trans hbc
            rw [if_pos hbc] at h2
            rw [if_pos hac]
            have hbs : bs = (if a = b then bs else bs) := by rw [if_pos hab]
            exact ih bs cs h1 h2
          · have hac : ¬ a = c := fun h => hbc ((hab.symm.trans h))
            rw [if_neg hbc] at h2
            rw [if_neg hac]
            have hlt2 : b.toNat < c.toNat := lt_of_ite_toNat h2
            have hlt3 : a.toNat < c.toNat := by rw [hab]; exact hlt2
            rw [if_pos hlt3]
        · rw [if_neg hab] at h1
          have hlt1 : a.toNat < b.toNat := lt_of_ite_toNat h1
          by_cases hbc : b = c
          · have hac : ¬ a = c := fun h => hab (h.trans hbc.symm)
            have hlt3 : a.toNat < c.toNat := by rw [← hbc]; exact hlt1
            rw [if_neg hac, if_pos hlt3]
          · rw [if_neg hbc] at h2
            have hlt2 : b.toNat < c.toNat := lt_of_ite_toNat h2
            have hlt3 : a.toNat < c.toNat := by omega
            have hac : ¬ a = c := fun h => by rw [h] at hlt3; omega
            rw [if_neg hac, if_pos hlt3]

theorem cmpChars_isLE_trans (x y z : List Char)
    (h1 : (cmpChars x y).isLE = true) (h2 : (cmpChars y z).isLE = true) :
    (cmpChars x z).isLE = true := by
  rcases hxy : cmpChars x y with _ | _ | _
  · rcases hyz : cmpChars y z with _ | _ | _
    · simp [cmpChars_lt_trans x y z hxy hyz, Ordering.isLE]
    · have hyzeq : y = z := (cmpChars_eq_iff y z).mp hyz
      subst hyzeq
      simp [hxy, Ordering.isLE]
    · rw [hyz] at h2; simp [Ordering.isLE] at h2
  · have hxyeq : x = y := (cmpChars_eq_iff x y).mp hxy
    subst hxyeq
    exact h2
  · rw [hxy] at h1; simp [Ordering.isLE] at h1

theorem cmpNat_eq_iff (a b : Nat) : cmpNat a b = .eq ↔ a = b := by
  unfold cmpNat
  by_cases h1 : a < b
  · simp [h1]; omega
  · by_cases h2 : b < a <;> simp [h1, h2] <;> omega

theorem cmpNat_lt_iff (a b : Nat) : cmpNat a b = .lt ↔ a < b := by
  unfold cmpNat
  by_cases h1 : a < b
  · simp [h1]
  · by_cases h2 : b < a <;> simp [h1, h2]

theorem cmpNat_symm (a b : Nat) : cmpNat b a = (cmpNat a b).swap := by
  unfold cmpNat
  by_cases h1 : a < b
  · have h2 : ¬ b < a := by omega
    simp [h1, h2, Ordering.swap]
  · by_cases h2 : b < a
    · simp [h1, h2, Ordering.swap]
    · simp [h1, h2, Ordering.swap]

theorem cmpNat_isLE_iff (a b : Nat) : (cmpNat a b).isLE = true ↔ a ≤ b := by
  unfold cmpNat
  by_cases h1 : a < b
  · rw [if_pos h1]
    constructor
    · intro _; omega
    · intro _; rfl
  · by_cases h2 : b < a
    · rw [if_neg h1, if_pos h2]
      constructor
      · intro h; exact Bool.noConfusion h
      · intro h; exact absurd h (by omega)
    · rw [if_neg h1, if_neg h2]
      constructor
      · intro _; omega
      · intro _; rfl

theorem cmpNat_isLE_trans (a b c : Nat)
    (h1 : (cmpNat a b).isLE = true) (h2 : (cmpNat b c).isLE = true) :
    (cmpNat a c).isLE = true := by
  rw [cmpNat_isLE_iff] at h1 h2 ⊢
  omega

theorem str_data_inj {a b : String} (h : a.data = b.data) : a = b :=
  congrArg String.mk h

theorem cmpOptStr_eq_iff (x y : Option String) : cmpOptStr x y = .eq ↔ x = y := by
  cases x with
  | none => cases y <;> simp [cmpOptStr]
  | some a =>
    cases y with
    | none => simp [cmpOptStr]
    | some b =>
      simp only [cmpOptStr, cmpChars_eq_iff, Option.some.injEq]
      constructor
      · intro h; exact str_data_inj h
      · intro h; rw [h]

theorem cmpOptStr_symm (x y : Option String) : cmpOptStr y x = (cmpOptStr x y).swap := by
  cases x with
  | none => cases y <;> rfl
  | some a =>
    cases y with
    | none => rfl
    | some b =>
      show cmpChars b.data a.data = (cmpChars a.data b.data).swap
      exact cmpChars_symm a.data b.data

theorem cmpOptStr_isLE_trans (x y z : Option String)
    (h1 : (cmpOptStr x y).isLE = true) (h2 : (cmpOptStr y z).isLE = true) :
    (cmpOptStr x z).isLE = true := by
  cases x with
  | none =>
    cases y with
    | none => cases z <;> simpa [cmpOptStr] using h2
    | some b => cases z <;> simp [cmpOptStr, Ordering.isLE] at h1 ⊢
  | some a =>
    cases y with
    | none => cases z <;> simp [cmpOptStr, Ordering.isLE] at h2 ⊢
    | some b =>
      cases z with
      | none => simp [cmpOptStr, Ordering.isLE]
      | some c =>
        simp only [cmpOptStr] at h1 h2 ⊢
        exact cmpChars_isLE_trans a.data b.data c.data h1 h2

/-- Strictness upgrade: a strict first step followed by a non-strict step
stays strict, for any comparator with swap symmetry and transitive
non-strict order. -/
theorem cmp_lt_of_lt_of_isLE {α : Type} (c : α → α → Ordering)
    (hs : ∀ a b, c b a = (c a b).swap)
    (ht : ∀ a b d, (c a b).isLE = true → (c b d).isLE = true → (c a d).isLE = true)
    {a b d : α} (h1 : c a b = .lt) (h2 : (c b d).isLE = true) : c a d = .lt := by
  have hle : (c a d).isLE = true := ht a b d (by simp [h1, Ordering.isLE]) h2
  rcases had : c a d with _ | _ | _
  · rfl
  · have hda : c d a = .eq := by rw [hs a d, had]; rfl
    have hba : (c b a).isLE = true := ht b d a h2 (by simp [hda, Ordering.isLE])
    rw [hs a b, h1] at hba
    simp [Ordering.swap, Ordering.isLE] at hba
  · rw [had] at hle; simp [Ordering.isLE] at hle

/-- Strictness upgrade on the other side. -/
theorem cmp_lt_of_isLE_of_lt {α : Type} (c : α → α → Ordering)
    (hs : ∀ a b, c b a = (c a b).swap)
    (ht : ∀ a b d, (c a b).isLE = true → (c b d).isLE = true → (c a d).isLE = true)
    {a b d : α} (h1 : (c a b).isLE = true) (h2 : c b d = .lt) : c a d = .lt := by
  have hle : (c a d).isLE = true := ht a b d h1 (by simp [h2, Ordering.isLE])
  rcases had : c a d with _ | _ | _
  · rfl
  · have hda : c d a = .eq := by rw [hs a d, had]; rfl
    have hdb : (c d b).isLE = true := ht d a b (by simp [hda, Ordering.isLE]) h1
    rw [hs b d, h2] at hdb
    simp [Ordering.swap, Ordering.isLE] at hdb
  · rw [had] at hle; simp [Ordering.isLE] at hle

/-- Equivalence in the first sort key is transitive. -/
theorem cmp_eq_trans {α : Type} (c : α → α → Ordering)
    (hs : ∀ a b, c b a = (c a b).swap)
    (ht : ∀ a b d, (c a b).isLE = true → (c b d).isLE = true → (c a d).isLE = true)
    {a b d : α} (h1 : c a b = .eq) (h2 : c b d = .eq) : c a d = .eq := by
  have hle : (c a d).isLE = true :=
    ht a b d (by simp [h1, Ordering.isLE]) (by simp [h2, Ordering.isLE])
  have hdb : c d b = .eq := by rw [hs b d, h2]; rfl
  have hba : c b a = .eq := by rw [hs a b, h1]; rfl
  have hge : (c d a).isLE = true :=
    ht d b a (by simp [hdb, Ordering.isLE]) (by simp [hba, Ordering.isLE])
  rcases had : c a d with _ | _ | _
  · rw [hs a d, had] at hge; simp [Ordering.swap, Ordering.isLE] at hge
  · rfl
  · rw [had] at hle; simp [Ordering.isLE] at hle

/-- Lexicographic composition of two comparators preserves transitivity of
the non-strict order. -/
theorem thenCmp_isLE_trans {α : Type} (c1 c2 : α → α → Ordering)
    (h1s : ∀ a b, c1 b a = (c1 a b).swap)
    (h1t : ∀ a b d, (c1 a b).isLE = true → (c1 b d).isLE = true → (c1 a d).isLE = true)
    (h2t : ∀ a b d, (c2 a b).isLE = true → (c2 b d).isLE = true → (c2 a d).isLE = true)
    (a b d : α)
    (hab : ((c1 a b).then (c2 a b)).isLE = true)
    (hbd : ((c1 b d).then (c2 b d)).isLE = true) :
    ((c1 a d).then (c2 a d)).isLE = true := by
  rcases h1ab : c1 a b with _ | _ | _
  · rcases h1bd : c1 b d with _ | _ | _
    · have : c1 a d = .lt :=
        cmp_lt_of_lt_of_isLE c1 h1s h1t h1ab (by simp [h1bd, Ordering.isLE])
      simp [this, ordThen_lt, Ordering.isLE]
    · have : c1 a d = .lt :=
        cmp_lt_of_lt_of_isLE c1 h1s h1t h1ab (by simp [h1bd, Ordering.isLE])
      simp [this, ordThen_lt, Ordering.isLE]
    · rw [h1bd, ordThen_gt] at hbd; simp [Ordering.isLE] at hbd
  · rw [h1ab, ordThen_eq] at hab
    rcases h1bd : c1 b d with _ | _ | _
    · have : c1 a d = .lt :=
        cmp_lt_of_isLE_of_lt c1 h1s h1t (by simp [h1ab, Ordering.isLE]) h1bd
      simp [this, ordThen_lt, Ordering.isLE]
    · rw [h1bd, ordThen_eq] at hbd
      have : c1 a d = .eq := cmp_eq_trans c1 h1s h1t h1ab h1bd
      rw [this, ordThen_eq]
      exact h2t a b d hab hbd
    · rw [h1bd, ordThen_gt] at hbd; simp [Ordering.isLE] at hbd
  · rw [h1ab, ordThen_gt] at hab; simp [Ordering.isLE] at hab

/-- Swap symmetry of a comparator yields totality of its non-strict
order. -/
theorem cmp_isLE_total {α : Type} (c : α → α → Ordering)
    (hs : ∀ a b, c b a = (c a b).swap) (a b : α) :
    (c a b).isLE = true ∨ (c b a).isLE = true := by
  rcases h : c a b with _ | _ | _
  · left; simp [Ordering.isLE]
  · left; simp [Ordering.isLE]
  · right; rw [hs a b, h]; rfl

theorem cmpTaskDefault_symm (a b : Task) : cmpTaskDefault b a = (cmpTaskDefault a b).swap := by
  unfold cmpTaskDefault
  rw [ordThen_swap, ordThen_swap, ← cmpOptStr_symm, ← cmpNat_symm, ← cmpChars_symm]

theorem cmpTaskDefault_isLE_trans (a b d : Task)
    (h1 : (cmpTaskDefault a b).isLE = true) (h2 : (cmpTaskDefault b d).isLE = true) :
    (cmpTaskDefault a d).isLE = true := by
  unfold cmpTaskDefault at h1 h2 ⊢
  refine thenCmp_isLE_trans (fun x y => cmpOptStr x.dueDate y.dueDate)
    (fun x y => (cmpNat (priorityRank x.priority) (priorityRank y.priority)).then
      (cmpChars y.createdAt.data x.createdAt.data))
    (fun x y => cmpOptStr_symm x.dueDate y.dueDate)
    (fun x y z => cmpOptStr_isLE_trans _ _ _)
    ?_ a b d h1 h2
  intro x y z hxy hyz
  exact thenCmp_isLE_trans
    (fun u v => cmpNat (priorityRank u.priority) (priorityRank v.priority))
    (fun u v => cmpChars v.createdAt.data u.createdAt.data)
    (fun u v => cmpNat_symm _ _)
    (fun u v w => cmpNat_isLE_trans _ _ _)
    (fun u v w hu hv =>
      cmpChars_isLE_trans w.createdAt.data v.createdAt.data u.createdAt.data hv hu)
    x y z hxy hyz

instance : IsTrans Task taskLeDefault where
  trans := fun a b c => cmpTaskDefault_isLE_trans a b c

instance : IsTotal Task taskLeDefault where
  total := fun a b => cmp_isLE_total cmpTaskDefault cmpTaskDefault_symm a b

theorem cmpTaskDueDate_symm (a b : Task) : cmpTaskDueDate b a = (cmpTaskDueDate a b).swap :=
  cmpOptStr_symm a.dueDate b.dueDate

instance : IsTrans Task taskLeDueDate where
  trans := fun a b c hab hbc => cmpOptStr_isLE_trans _ _ _ hab hbc

instance : IsTotal Task taskLeDueDate where
  total := fun a b => cmp_isLE_total cmpTaskDueDate cmpTaskDueDate_symm a b

theorem cmpTaskPriority_symm (a b : Task) : cmpTaskPriority b a = (cmpTaskPriority a b).swap :=
  cmpNat_symm _ _

instance : IsTrans Task taskLePriority where
  trans := fun a b c hab hbc => cmpNat_isLE_trans _ _ _ hab hbc

instance : IsTotal Task taskLePriority where
  total := fun a b => cmp_isLE_total cmpTaskPriority cmpTaskPriority_symm a b

theorem cmpTaskCreatedAt_symm (a b : Task) : cmpTaskCreatedAt b a = (cmpTaskCreatedAt a b).swap :=
  cmpChars_symm _ _

instance : IsTrans Task taskLeCreatedAt where
  trans := fun a b c hab hbc => cmpChars_isLE_trans _ _ _ hbc hab

instance : IsTotal Task taskLeCreatedAt where
  total := fun a b => cmp_isLE_total cmpTaskCreatedAt cmpTaskCreatedAt_symm a b

/-! ## Row lookup helpers -/

/-- A per-id UPDATE maps the first row the existence check found to its
updated image, so a SELECT by id after the UPDATE returns exactly that
image. -/
theorem find?_map_upd (s : List Task) (i : String) (f : Task → Task)
    (hf : ∀ t, (f t).id = t.id) :
    (s.map (fun t => if t.id == i then f t else t)).find? (fun t => t.id == i)
      = (s.find? (fun t => t.id == i)).map f := by
  induction s with
  | nil => rfl
  | cons a as ih =>
    cases ha : (a.id == i) with
    | true =>
      have hfa : ((f a).id == i) = true := by rw [hf a]; exact ha
      rw [List.map_cons, if_pos ha]
      simp only [List.find?_cons, hfa, ha]
      rfl
    | false =>
      have hA : ¬ ((a.id == i) = true) := by simp [ha]
      rw [List.map_cons, if_neg hA]
      simp only [List.find?_cons, ha]
      exact ih

/-- After DELETE by id no row with that id remains to be found. -/
theorem find?_after_delete (s : List Task) (i : String) :
    (s.filter (fun t => !(t.id == i))).find? (fun t => t.id == i) = none := by
  rw [List.find?_eq_none]
  intro x hx
  have hmem := (List.mem_filter.mp hx).2
  simp only [Bool.not_eq_true'] at hmem
  simp [hmem]

/-! ## Claim theorems -/

/-- Sample stored task used by concrete witnesses. -/
def sampleTask : Task :=
  { id := "t1"
    title := "Buy milk"
    description := "from the store"
    dueDate := none
    priority := "medium"
    tags := []
    completed := false
    createdAt := "2024-01-01T00:00:00.000Z"
    updatedAt := "2024-01-01T00:00:00.000Z" }

/-- C10: an Update aimed at a nonexistent id yields not-found regardless
of the supplied fields, because the existence check precedes validation;
the request body may be arbitrarily invalid. -/
theorem update_not_found_precedes_validation (s : List Task) (i : String) (req : UpdateReq)
    (now : String) (h : s.find? (fun t => t.id == i) = none) :
    updateTask i req now s = .error .notFound := by
  unfold updateTask
  rw [h]

/-- Invalid on every count: empty title, priority outside the enum,
unparsable due date. -/
def invalidUpdateReq : UpdateReq :=
  { title := some ""
    description := none
    dueDate := some (some "not-a-date")
    priority := some "urgent"
    tags := none
    completed := none }

theorem update_not_found_precedes_validation_witness :
    updateTask "missing" invalidUpdateReq "2024-01-02T00:00:00.000Z" [sampleTask]
        = .error .notFound ∧
      jsTrim "" = "" ∧ validPriorities.contains "urgent" = false ∧
      isValidDate "not-a-date" = false :=
  ⟨update_not_found_precedes_validation [sampleTask] "missing" invalidUpdateReq
      "2024-01-02T00:00:00.000Z" (by decide),
    by decide, by decide, by decide⟩

/-- C6: Delete removes the record when the id exists and fails with
not-found when it does not; deleting twice therefore succeeds once and
yields not-found on the second call. -/
theorem delete_then_delete_not_found (s : List Task) (i : String) :
    (s.find? (fun t => t.id == i) = none → deleteTask i s = .error .notFound) ∧
    (∀ a, s.find? (fun t => t.id == i) = some a →
      deleteTask i s = .ok (i, s.filter (fun t => !(t.id == i))) ∧
        deleteTask i (s.filter (fun t => !(t.id == i))) = .error .notFound) := by
  constructor
  · intro h; unfold deleteTask; rw [h]
  · intro a h
    constructor
    · unfold deleteTask; rw [h]
    · unfold deleteTask; rw [find?_after_delete]

theorem delete_then_delete_not_found_witness :
    deleteTask "t1" [sampleTask]
        = .ok ("t1", [sampleTask].filter (fun t => !(t.id == "t1"))) ∧
      deleteTask "t1" ([sampleTask].filter (fun t => !(t.id == "t1")))
        = .error .notFound :=
  (delete_then_delete_not_found [sampleTask] "t1").2 sampleTask (by decide)

/-- C5: under a strictly advancing clock, toggling twice restores the
original completed flag, and each toggle rewrites updatedAt to the current
clock value, so updatedAt strictly increases across the two calls. -/
theorem toggle_twice_involution (s : List Task) (i t1 t2 : String) (a r1 r2 : Task)
    (s1 s2 : List Task)
    (h0 : s.find? (fun t => t.id == i) = some a)
    (h1 : toggleTask i t1 s = .ok (r1, s1))
    (h2 : toggleTask i t2 s1 = .ok (r2, s2))
    (hc0 : strLt a.updatedAt t1) (hc1 : strLt t1 t2) :
    r2.completed = a.completed ∧ r1.completed = !a.completed ∧
      r1.updatedAt = t1 ∧ r2.updatedAt = t2 ∧
      strLt a.updatedAt r1.updatedAt ∧ strLt r1.updatedAt r2.updatedAt := by
  have e1 : toggleTask i t1 s
      = .ok ({ a with completed := !a.completed, updatedAt := t1 },
          s.map (fun t =>
            if t.id == i then { t with completed := !a.completed, updatedAt := t1 } else t)) := by
    unfold toggleTask; rw [h0]
  rw [e1, Except.ok.injEq, Prod.mk.injEq] at h1
  obtain ⟨hr1, hs1⟩ := h1
  have hfind : s1.find? (fun t => t.id == i)
      = some ({ a with completed := !a.completed, updatedAt := t1 }) := by
    rw [← hs1]
    have hm := find?_map_upd s i
      (fun t => { t with completed := !a.completed, updatedAt := t1 }) (fun t => rfl)
    rw [h0] at hm
    simpa using hm
  have e2 : toggleTask i t2 s1
      = .ok ({ a with completed := !(!a.completed), updatedAt := t2 },
          s1.map (fun t =>
            if t.id == i then { t with completed := !(!a.completed), updatedAt := t2 } else t)) := by
    unfold toggleTask; rw [hfind]
  rw [e2, Except.ok.injEq, Prod.mk.injEq] at h2
  obtain ⟨hr2, -⟩ := h2
  refine ⟨?_, ?_, ?_, ?_, ?_, ?_⟩
  · rw [← hr2]; exact Bool.not_not a.completed
  · rw [← hr1]
  · rw [← hr1]
  · rw [← hr2]
  · rw [← hr1]; exact hc0
  · rw [← hr1, ← hr2]; exact hc1

theorem toggle_twice_involution_witness :
    ∃ r1 r2 : Task, ∃ s1 s2 : List Task,
      toggleTask "t1" "2024-01-02T00:00:00.000Z" [sampleTask] = .ok (r1, s1) ∧
      toggleTask "t1" "2024-01-03T00:00:00.000Z" s1 = .ok (r2, s2) ∧
      r2.completed = sampleTask.completed ∧ r1.completed = !sampleTask.completed ∧
      strLt sampleTask.updatedAt r1.updatedAt ∧ strLt r1.updatedAt r2.updatedAt := by
  refine ⟨{ sampleTask with completed := true, updatedAt := "2024-01-02T00:00:00.000Z" },
    { sampleTask with completed := false, updatedAt := "2024-01-03T00:00:00.000Z" },
    [{ sampleTask with completed := true, updatedAt := "2024-01-02T00:00:00.000Z" }],
    [{ sampleTask with completed := false, updatedAt := "2024-01-03T00:00:00.000Z" }],
    by decide, by decide, ?_, ?_, ?_, ?_⟩
  all_goals
    have h := toggle_twice_involution [sampleTask] "t1"
      "2024-01-02T00:00:00.000Z" "2024-01-03T00:00:00.000Z" sampleTask
      { sampleTask with completed := true, updatedAt := "2024-01-02T00:00:00.000Z" }
      { sampleTask with completed := false, updatedAt := "2024-01-03T00:00:00.000Z" }
      [{ sampleTask with completed := true, updatedAt := "2024-01-02T00:00:00.000Z" }]
      [{ sampleTask with completed := false, updatedAt := "2024-01-03T00:00:00.000Z" }]
      (by decide) (by decide) (by decide) (by decide) (by decide)
  · exact h.1
  · exact h.2.1
  · exact h.2.2.2.2.1
  · exact h.2.2.2.2.2

/-- C4: a partial Update keeps every unsupplied mutable field at its prior
value, always rewrites updatedAt to the clock value, never touches id or
createdAt, and leaves every other row of the table in place; a supplied
priority is stored as sent. -/
theorem update_partial_frame (s : List Task) (i : String) (req : UpdateReq) (now : String)
    (a r : Task) (s2 : List Task)
    (h0 : s.find? (fun t => t.id == i) = some a)
    (hok : updateTask i req now s = .ok (r, s2)) :
    (req.title = none → r.title = a.title) ∧
    (req.description = none → r.description = a.description) ∧
    (req.dueDate = none → r.dueDate = a.dueDate) ∧
    (req.priority = none → r.priority = a.priority) ∧
    (req.tags = none → r.tags = a.tags) ∧
    (req.completed = none → r.completed = a.completed) ∧
    r.updatedAt = now ∧ r.id = a.id ∧ r.createdAt = a.createdAt ∧
    (∀ p, req.priority = some p → r.priority = p) ∧
    (∀ u ∈ s, u.id ≠ i → u ∈ s2) := by
  unfold updateTask at hok
  simp only [h0] at hok
  by_cases c1 : (match req.title with | some x => jsTrim x == "" | none => false) = true
  · rw [if_pos c1] at hok; exact Except.noConfusion hok
  · rw [if_neg c1] at hok
    by_cases c2 : (match req.priority with
        | some p => !(validPriorities.contains p)
        | none => false) = true
    · rw [if_pos c2] at hok; exact Except.noConfusion hok
    · rw [if_neg c2] at hok
      by_cases c3 : (match req.dueDate with
          | some (some dd) => !(isValidDate dd)
          | _ => false) = true
      · rw [if_pos c3] at hok; exact Except.noConfusion hok
      · rw [if_neg c3] at hok
        rw [Except.ok.injEq, Prod.mk.injEq] at hok
        obtain ⟨hr, hs2⟩ := hok
        refine ⟨?_, ?_, ?_, ?_, ?_, ?_, ?_, ?_, ?_, ?_, ?_⟩
        · intro h; rw [← hr]; show (applyUpdate req now a).title = a.title
          unfold applyUpdate; simp [h]
        · intro h; rw [← hr]; show (applyUpdate req now a).description = a.description
          unfold applyUpdate; simp [h]
        · intro h; rw [← hr]; show (applyUpdate req now a).dueDate = a.dueDate
          unfold applyUpdate; simp [h]
        · intro h; rw [← hr]; show (applyUpdate req now a).priority = a.priority
          unfold applyUpdate; simp [h]
        · intro h; rw [← hr]; show (applyUpdate req now a).tags = a.tags
          unfold applyUpdate; simp [h]
        · intro h; rw [← hr]; show (applyUpdate req now a).completed = a.completed
          unfold applyUpdate; simp [h]
        · rw [← hr]; rfl
        · rw [← hr]; rfl
        · rw [← hr]; rfl
        · intro p hp; rw [← hr]; show (applyUpdate req now a).priority = p
          unfold applyUpdate; simp [hp]
        · intro u hu hne
          rw [← hs2]
          refine List.mem_map.mpr ⟨u, hu, ?_⟩
          have hb : (u.id == i) = false := by simp [hne]
          simp [hb]

/-- Update request of the specification scenario: only the priority is
supplied. -/
def onlyPriorityReq : UpdateReq :=
  { title := none
    description := none
    dueDate := none
    priority := some "low"
    tags := none
    completed := none }

theorem update_partial_frame_witness :
    ∃ r : Task, ∃ s2 : List Task,
      updateTask "t1" onlyPriorityReq "2024-01-02T00:00:00.000Z" [sampleTask] = .ok (r, s2) ∧
      r.title = sampleTask.title ∧ r.description = sampleTask.description ∧
      r.dueDate = sampleTask.dueDate ∧ r.tags = sampleTask.tags ∧
      r.priority = "low" ∧ r.updatedAt = "2024-01-02T00:00:00.000Z" := by
  refine ⟨{ sampleTask with priority := "low", updatedAt := "2024-01-02T00:00:00.000Z" },
    [{ sampleTask with priority := "low", updatedAt := "2024-01-02T00:00:00.000Z" }],
    by decide, ?_, ?_, ?_, ?_, ?_, ?_⟩
  all_goals
    have h := update_partial_frame [sampleTask] "t1" onlyPriorityReq
      "2024-01-02T00:00:00.000Z" sampleTask
      { sampleTask with priority := "low", updatedAt := "2024-01-02T00:00:00.000Z" }
      [{ sampleTask with priority := "low", updatedAt := "2024-01-02T00:00:00.000Z" }]
      (by decide) (by decide)
  · exact h.1 rfl
  · exact h.2.1 rfl
  · exact h.2.2.1 rfl
  · exact h.2.2.2.2.1 rfl
  · exact h.2.2.2.2.2.2.2.2.2.1 "low" rfl
  · exact h.2.2.2.2.2.2.1

/-- C8: every successful Create stores the trimmed title, a false
completed flag, and the default priority medium when none was supplied. -/
theorem create_response_shape (req : CreateReq) (i now : String) (s : List Task)
    (t : Task) (s2 : List Task)
    (hok : createTask req i now s = .ok (t, s2)) :
    (∀ x, req.title = some x → t.title = jsTrim x) ∧
    t.completed = false ∧
    (req.priority = none → t.priority = "medium") := by
  unfold createTask at hok
  cases hT : req.title with
  | none => rw [hT] at hok; exact Except.noConfusion hok
  | some x =>
    simp only [hT] at hok
    by_cases c1 : (jsTrim x == "") = true
    · rw [if_pos c1] at hok; exact Except.noConfusion hok
    · rw [if_neg c1] at hok
      by_cases c2 : (!(validPriorities.contains (req.priority.getD "medium"))) = true
      · rw [if_pos c2] at hok; exact Except.noConfusion hok
      · rw [if_neg c2] at hok
        by_cases c3 : (match req.dueDate.getD none with
            | some dd => dd != "" && !(isValidDate dd)
            | none => false) = true
        · rw [if_pos c3] at hok; exact Except.noConfusion hok
        · rw [if_neg c3] at hok
          rw [Except.ok.injEq, Prod.mk.injEq] at hok
          obtain ⟨ht, -⟩ := hok
          refine ⟨?_, ?_, ?_⟩
          · intro y hy
            have hxy : x = y := by injection hy
            subst hxy
            rw [← ht]
          · rw [← ht]
          · intro hp; rw [← ht]; show req.priority.getD "medium" = "medium"
            rw [hp]; rfl

/-- Create request with a padded title and no priority. -/
def paddedTitleReq : CreateReq :=
  { title := some "   Buy milk   "
    description := none
    dueDate := none
    priority := none
    tags := none }

/-- Record the padded-title create stores. -/
def createdMilkTask : Task :=
  { id := "id9"
    title := "Buy milk"
    description := ""
    dueDate := none
    priority := "medium"
    tags := []
    completed := false
    createdAt := "2024-02-01T00:00:00.000Z"
    updatedAt := "2024-02-01T00:00:00.000Z" }

theorem create_response_shape_witness :
    createTask paddedTitleReq "id9" "2024-02-01T00:00:00.000Z" []
        = .ok (createdMilkTask, [createdMilkTask]) ∧
      createdMilkTask.title = "Buy milk" ∧ createdMilkTask.completed = false ∧
      createdMilkTask.priority = "medium" := by
  refine ⟨by decide, ?_, ?_, ?_⟩
  all_goals
    have h := create_response_shape paddedTitleReq "id9" "2024-02-01T00:00:00.000Z" []
      createdMilkTask [createdMilkTask] (by decide)
  · exact (h.1 "   Buy milk   " rfl).trans (by decide)
  · exact h.2.1
  · exact h.2.2 rfl

/-- The title of the create request is missing, or empty or whitespace
only once trimmed. -/
def createBadTitle (req : CreateReq) : Bool :=
  match req.title with
  | none => true
  | some t => jsTrim t == ""

/-- The effective priority of the create request (defaulted to medium)
lies outside the enum. -/
def createBadPriority (req : CreateReq) : Bool :=
  !(validPriorities.contains (req.priority.getD "medium"))

/-- The effective due date of the create request is a truthy (non-null and
non-empty) string that does not parse as a date. -/
def createBadDueDate (req : CreateReq) : Bool :=
  match req.dueDate.getD none with
  | some d => d != "" && !(isValidDate d)
  | none => false

theorem create_fails_iff (req : CreateReq) (i now : String) (s : List Task) :
    (∃ m, createTask req i now s = .error (.validation m)) ↔
      (createBadTitle req || createBadPriority req || createBadDueDate req) = true := by
  unfold createTask createBadTitle createBadPriority createBadDueDate
  cases hT : req.title with
  | none => simp
  | some x =>
    by_cases c1 : (jsTrim x == "") = true
    · simp [c1]
    · by_cases c2 : (req.priority.getD "medium") ∈ validPriorities
      · by_cases c3 : (match req.dueDate.getD none with
            | some dd => dd != "" && !(isValidDate dd)
            | none => false) = true
        · simp [c1, c2, c3]
        · simp [c1, c2, c3]
      · simp [c1, c2]

/-- Create request of the specification scenario with an explicit null
due date. -/
def dueNullReq : CreateReq :=
  { title := some "Buy milk"
    description := none
    dueDate := some none
    priority := none
    tags := none }

/-- Create request of the specification scenario with an unparsable due
date. -/
def dueBadReq : CreateReq :=
  { title := some "Buy milk"
    description := none
    dueDate := some (some "not-a-date")
    priority := none
    tags := none }

/-- Record stored by the null due date create of the scenario. -/
def milkNullDueTask : Task :=
  { id := "id1"
    title := "Buy milk"
    description := ""
    dueDate := none
    priority := "medium"
    tags := []
    completed := false
    createdAt := "2024-02-01T00:00:00.000Z"
    updatedAt := "2024-02-01T00:00:00.000Z" }

/-- C1 (amended): Create fails with a validation error exactly when the
title is missing, empty or whitespace-only, the effective priority is
outside the enum, or the due date is a truthy (non-null, non-empty)
string that does not parse; the not-a-date request fails and the
explicit-null request succeeds storing null. -/
theorem create_validation_characterization :
    (∀ (req : CreateReq) (i now : String) (s : List Task),
      (∃ m, createTask req i now s = .error (.validation m)) ↔
        (createBadTitle req || createBadPriority req || createBadDueDate req) = true) ∧
    (∃ m, createTask dueBadReq "id1" "2024-02-01T00:00:00.000Z" []
        = .error (.validation m)) ∧
    (createTask dueNullReq "id1" "2024-02-01T00:00:00.000Z" []
        = .ok (milkNullDueTask, [milkNullDueTask]) ∧ milkNullDueTask.dueDate = none) := by
  refine ⟨create_fails_iff, ⟨"Invalid due date format", by decide⟩, by decide, rfl⟩

/-- Create request whose due date is the empty string: present and
non-null, yet falsy in JavaScript, so the handler skips the date check. -/
def emptyDueReq : CreateReq :=
  { title := some "Buy milk"
    description := none
    dueDate := some (some "")
    priority := none
    tags := none }

/-- Record stored by the empty-string due date create. -/
def milkEmptyDueTask : Task :=
  { id := "id1"
    title := "Buy milk"
    description := ""
    dueDate := some ""
    priority := "medium"
    tags := []
    completed := false
    createdAt := "2024-02-01T00:00:00.000Z"
    updatedAt := "2024-02-01T00:00:00.000Z" }

/-- C1 counterexample: the empty string is a present, non-null due date
that does not parse as a date, yet the create succeeds and stores it
verbatim, so failure is not equivalent to the condition of the claim. -/
theorem create_empty_dueDate_counterexample :
    (emptyDueReq.dueDate = some (some "") ∧ isValidDate "" = false) ∧
    createTask emptyDueReq "id1" "2024-02-01T00:00:00.000Z" []
      = .ok (milkEmptyDueTask, [milkEmptyDueTask]) := by
  exact ⟨⟨rfl, by decide⟩, by decide⟩

/-- C9 counterexample: the addTask mutation of the hook awaits the create
API call first and only then prepends to local state, so its trace does
not apply a local change before the request. -/
theorem addTask_not_optimistic : localBeforeApi addTaskTrace = false := by decide

/-- C9 (amended): update, toggle and delete apply their optimistic local
change before the API call; addTask instead issues the create request
first and, on success, prepends the server-returned task to the previous
local collection. -/
theorem hook_mutation_order :
    localBeforeApi updateTaskTrace = true ∧
    localBeforeApi toggleTaskTrace = true ∧
    localBeforeApi deleteTaskTrace = true ∧
    addTaskTrace = [UiStep.apiRequest, UiStep.localUpdate] ∧
    ∀ (serverTask : Task) (prev : List Task),
      addTaskOnSuccess serverTask prev = serverTask :: prev := by
  exact ⟨by decide, by decide, by decide, rfl, fun _ _ => rfl⟩

/-- One per-id UPDATE statement run over the whole id list has the same
effect as a single pass that rewrites the rows whose id is listed, for
any idempotent id-preserving row change. -/
theorem foldl_map_upd (g : Task → Task) (hg : ∀ t, (g t).id = t.id)
    (hgg : ∀ t, g (g t) = g t) :
    ∀ (ids : List String) (s : List Task),
      ids.foldl (fun st i => st.map (fun t => if t.id == i then g t else t)) s
        = s.map (fun t => if t.id ∈ ids then g t else t) := by
  intro ids
  induction ids with
  | nil =>
    intro s
    simp
  | cons i rest ih =>
    intro s
    rw [List.foldl_cons, ih, List.map_map]
    apply List.map_congr_left
    intro t _
    simp only [Function.comp_apply]
    by_cases hti : t.id = i
    · have hb : (t.id == i) = true := by simp [hti]
      rw [if_pos hb]
      have hmem : t.id ∈ i :: rest := by simp [hti]
      by_cases hr : t.id ∈ rest
      · have hr2 : (g t).id ∈ rest := by rw [hg t]; exact hr
        rw [if_pos hr2, hgg t, if_pos hmem]
      · have hr2 : (g t).id ∉ rest := by rw [hg t]; exact hr
        rw [if_neg hr2, if_pos hmem]
    · have hb : ¬ ((t.id == i) = true) := by simp [hti]
      rw [if_neg hb]
      have hiff : (t.id ∈ i :: rest) ↔ (t.id ∈ rest) := by simp [hti]
      by_cases hr : t.id ∈ rest
      · rw [if_pos hr, if_pos (hiff.mpr hr)]
      · rw [if_neg hr, if_neg (fun h => hr (hiff.mp h))]

/-- Specialisation of the bulk UPDATE lemma to the complete action. -/
theorem foldl_bulk_complete (now : String) (ids : List String) (s : List Task) :
    ids.foldl (fun st i =>
        st.map (fun t =>
          if t.id == i then { t with completed := true, updatedAt := now } else t)) s
      = s.map (fun t =>
          if t.id ∈ ids then { t with completed := true, updatedAt := now } else t) := by
  simpa using foldl_map_upd (fun t => { t with completed := true, updatedAt := now })
    (fun t => rfl) (fun t => rfl) ids s

/-- Specialisation of the bulk UPDATE lemma to the uncomplete action. -/
theorem foldl_bulk_uncomplete (now : String) (ids : List String) (s : List Task) :
    ids.foldl (fun st i =>
        st.map (fun t =>
          if t.id == i then { t with completed := false, updatedAt := now } else t)) s
      = s.map (fun t =>
          if t.id ∈ ids then { t with completed := false, updatedAt := now } else t) := by
  simpa using foldl_map_upd (fun t => { t with completed := false, updatedAt := now })
    (fun t => rfl) (fun t => rfl) ids s

/-- One per-id DELETE statement run over the whole id list removes exactly
the rows whose id is listed. -/
theorem foldl_bulk_delete :
    ∀ (ids : List String) (s : List Task),
      ids.foldl (fun st i => st.filter (fun t => !(t.id == i))) s
        = s.filter (fun t => decide (t.id ∉ ids)) := by
  intro ids
  induction ids with
  | nil =>
    intro s
    simp
  | cons i rest ih =>
    intro s
    rw [List.foldl_cons, ih, List.filter_filter]
    apply List.filter_congr
    intro t _
    by_cases h1 : t.id = i <;> by_cases h2 : t.id ∈ rest <;> simp [h1, h2]

/-- C3: the bulk endpoint rejects a missing or empty id list and an
action outside the enum with validation errors; for each of the three
actions it changes exactly the rows whose id is listed (absent ids change
nothing) and reports the length of the requested id list as count. -/
theorem bulk_action_semantics (a now : String) (s : List Task) :
    (bulkAction a none now s = .error (.validation "taskIds must be a non-empty array")) ∧
    (bulkAction a (some []) now s
      = .error (.validation "taskIds must be a non-empty array")) ∧
    (∀ ids : List String, ids ≠ [] → a ≠ "complete" → a ≠ "uncomplete" → a ≠ "delete" →
      bulkAction a (some ids) now s
        = .error (.validation "Invalid action. Must be complete, uncomplete, or delete")) ∧
    (∀ ids : List String, ids ≠ [] →
      bulkAction "complete" (some ids) now s
        = .ok (ids.length, s.map (fun t =>
            if t.id ∈ ids then { t with completed := true, updatedAt := now } else t))) ∧
    (∀ ids : List String, ids ≠ [] →
      bulkAction "uncomplete" (some ids) now s
        = .ok (ids.length, s.map (fun t =>
            if t.id ∈ ids then { t with completed := false, updatedAt := now } else t))) ∧
    (∀ ids : List String, ids ≠ [] →
      bulkAction "delete" (some ids) now s
        = .ok (ids.length, s.filter (fun t => decide (t.id ∉ ids)))) := by
  have hemp : ∀ ids : List String, ids ≠ [] → ¬ (ids.isEmpty = true) := by
    intro ids hne
    cases ids with
    | nil => exact absurd rfl hne
    | cons x xs => intro h; cases h
  refine ⟨rfl, rfl, ?_, ?_, ?_, ?_⟩
  · intro ids hne h1 h2 h3
    simp only [bulkAction]
    rw [if_neg (hemp ids hne), if_neg (by simp [h1]), if_neg (by simp [h2]),
      if_neg (by simp [h3])]
  · intro ids hne
    simp only [bulkAction]
    rw [if_neg (hemp ids hne), if_pos (by rfl), foldl_bulk_complete]
  · intro ids hne
    simp only [bulkAction]
    rw [if_neg (hemp ids hne), if_neg (by decide), if_pos (by rfl), foldl_bulk_uncomplete]
  · intro ids hne
    simp only [bulkAction]
    rw [if_neg (hemp ids hne), if_neg (by decide), if_neg (by decide), if_pos (by rfl),
      foldl_bulk_delete]

/-- Image of the sample task once the bulk complete touches it. -/
def sampleTaskBulkDone : Task :=
  { sampleTask with completed := true, updatedAt := "2024-03-01T00:00:00.000Z" }

theorem bulk_action_semantics_witness :
    bulkAction "complete" (some ["t1", "ghost"]) "2024-03-01T00:00:00.000Z" [sampleTask]
      = .ok (2, [sampleTaskBulkDone]) := by
  have h := (bulk_action_semantics "complete" "2024-03-01T00:00:00.000Z"
    [sampleTask]).2.2.2.1 ["t1", "ghost"] (by decide)
  rw [h]
  decide

/-! ## Search semantics -/

/-- A pattern fragment with no LIKE wildcard characters. -/
def plainChars (p : List Char) : Bool :=
  p.all (fun c => !(c == '%') && !(c == '_'))

theorem tails_any_isEmpty (l : List Char) : l.tails.any (fun s => s.isEmpty) = true := by
  induction l with
  | nil => rfl
  | cons h hs ih => rw [List.tails_cons, List.any_cons]; simp [ih]

theorem likeMatch_pct (hay : List Char) : likeMatch ['%'] hay = true := by
  have h : likeMatch ['%'] hay = hay.tails.any (fun suf => likeMatch [] suf) := by
    simp [likeMatch]
  rw [h]
  exact tails_any_isEmpty hay

theorem likeMatch_plain_pct (p : List Char) (hp : plainChars p = true) :
    ∀ hay, likeMatch (p ++ ['%']) hay = ciStartsWith p hay := by
  induction p with
  | nil =>
    intro hay
    rw [List.nil_append, likeMatch_pct]
    rfl
  | cons c cs ih =>
    intro hay
    have hc := hp
    rw [plainChars, List.all_cons] at hc
    obtain ⟨hc1, hc2⟩ := Bool.and_eq_true_iff.mp hc
    obtain ⟨hcp, hcu⟩ := Bool.and_eq_true_iff.mp hc1
    have hcp' : ¬ (c = '%') := by simpa using hcp
    have hcu' : ¬ (c = '_') := by simpa using hcu
    have hcs : plainChars cs = true := hc2
    cases hay with
    | nil =>
      rw [List.cons_append]
      simp [likeMatch, ciStartsWith, hcp']
    | cons h hs =>
      rw [List.cons_append]
      simp [likeMatch, ciStartsWith, hcp', hcu', ih hcs hs]

theorem likeMatch_pct_nil (q : List Char) :
    likeMatch ('%' :: q) [] = likeMatch q [] := by
  show ([] : List Char).tails.any (fun suf => likeMatch q suf) = likeMatch q []
  rw [show ([] : List Char).tails = [[]] from rfl, List.any_cons, List.any_nil,
    Bool.or_false]

theorem likeMatch_pct_cons (q : List Char) (h : Char) (hs : List Char) :
    likeMatch ('%' :: q) (h :: hs)
      = (likeMatch q (h :: hs) || likeMatch ('%' :: q) hs) := by
  show (h :: hs).tails.any (fun suf => likeMatch q suf)
      = (likeMatch q (h :: hs) || hs.tails.any (fun suf => likeMatch q suf))
  rw [List.tails_cons, List.any_cons]

theorem ciContains_nil_needle (hay : List Char) : ciContains [] hay = true := by
  cases hay <;> rfl

/-- On wildcard-free search strings the LIKE pattern percent, search,
percent recognises exactly case-insensitive substring containment. -/
theorem likeMatch_contains (p : List Char) (hp : plainChars p = true) :
    ∀ hay, likeMatch ('%' :: (p ++ ['%'])) hay = ciContains p hay := by
  intro hay
  induction hay with
  | nil =>
    rw [likeMatch_pct_nil, likeMatch_plain_pct p hp []]
    cases p <;> rfl
  | cons h hs ih =>
    rw [likeMatch_pct_cons, likeMatch_plain_pct p hp (h :: hs), ih]
    rfl

theorem likeContains_eq_containsCI (srch hay : String) (hp : plainChars srch.data = true) :
    likeContains srch hay = containsCI srch hay :=
  likeMatch_contains srch.data hp hay.data

/-- List query that only sets the search parameter. -/
def searchQuery (srch : String) : ListQuery :=
  { status := none, priority := none, search := some srch, sortBy := none }

/-- C7 (amended): for a search string free of the LIKE wildcards percent
and underscore, the List operation returns exactly the stored tasks whose
title or description contains the search string as a case-insensitive
substring; a wildcard in the search string is instead interpreted by
LIKE. -/
theorem search_filters_by_substring (srch : String) (hp : plainChars srch.data = true)
    (s : List Task) (t : Task) :
    t ∈ getTasks (searchQuery srch) s ↔
      t ∈ s ∧ (containsCI srch t.title || containsCI srch t.description) = true := by
  have hred : getTasks (searchQuery srch) s
      = (s.filter (matchesFilters (searchQuery srch))).insertionSort taskLeDefault := rfl
  rw [hred]
  have hperm := List.perm_insertionSort taskLeDefault
    (s.filter (matchesFilters (searchQuery srch)))
  rw [hperm.mem_iff, List.mem_filter]
  have hmf : matchesFilters (searchQuery srch) t
      = (if srch == "" then true
         else likeContains srch t.title || likeContains srch t.description) := rfl
  by_cases hsr : srch = ""
  · subst hsr
    constructor
    · rintro ⟨hts, -⟩
      refine ⟨hts, ?_⟩
      show (ciContains [] t.title.data || ciContains [] t.description.data) = true
      rw [ciContains_nil_needle]
      rfl
    · rintro ⟨hts, -⟩
      exact ⟨hts, rfl⟩
  · have hbe : ¬ ((srch == "") = true) := by simpa using hsr
    constructor
    · rintro ⟨hts, hm⟩
      rw [hmf, if_neg hbe, likeContains_eq_containsCI srch t.title hp,
        likeContains_eq_containsCI srch t.description hp] at hm
      exact ⟨hts, hm⟩
    · rintro ⟨hts, hm⟩
      rw [hmf, if_neg hbe, likeContains_eq_containsCI srch t.title hp,
        likeContains_eq_containsCI srch t.description hp]
      exact ⟨hts, hm⟩

theorem search_filters_by_substring_witness :
    sampleTask ∈ getTasks (searchQuery "milk") [sampleTask] :=
  (search_filters_by_substring "milk" (by decide) [sampleTask] sampleTask).mpr
    ⟨List.mem_singleton.mpr rfl, by decide⟩

/-- Task whose title and description contain no underscore. -/
def underscoreFreeTask : Task :=
  { id := "u1"
    title := "ab"
    description := "cd"
    dueDate := none
    priority := "medium"
    tags := []
    completed := false
    createdAt := "2024-01-01T00:00:00.000Z"
    updatedAt := "2024-01-01T00:00:00.000Z" }

/-- C7 counterexample: searching for the single underscore returns a task
although neither its title nor its description contains an underscore,
because the unescaped search string acts as a LIKE wildcard. -/
theorem search_wildcard_counterexample :
    getTasks (searchQuery "_") [underscoreFreeTask] = [underscoreFreeTask] ∧
    (containsCI "_" underscoreFreeTask.title
      || containsCI "_" underscoreFreeTask.description) = false := by
  exact ⟨by decide, by decide⟩

/-! ## Default sort order -/

/-- Specification rank of a priority: high before medium before low. -/
def prioVal (p : String) : Nat :=
  if p = "high" then 0 else if p = "medium" then 1 else 2

/-- Order the claim states inside one due date group: higher priority
first, then newest createdAt first. -/
def tieOrdered (a b : Task) : Prop :=
  prioVal a.priority < prioVal b.priority ∨
    (prioVal a.priority = prioVal b.priority ∧ strLe b.createdAt a.createdAt)

/-- Pairwise order the claim states for the default sort. -/
def defaultSpecRel (a b : Task) : Prop :=
  match a.dueDate, b.dueDate with
  | some _, none => True
  | none, some _ => False
  | some da, some db => strLt da db ∨ (da = db ∧ tieOrdered a b)
  | none, none => tieOrdered a b

/-- List query with every parameter absent. -/
def allQuery : ListQuery :=
  { status := none, priority := none, search := none, sortBy := none }

theorem mem_validPriorities_iff (p : String) :
    p ∈ validPriorities ↔ p = "low" ∨ p = "medium" ∨ p = "high" := by
  simp [validPriorities]

theorem rank_compat {p q : String}
    (hp : p = "low" ∨ p = "medium" ∨ p = "high")
    (hq : q = "low" ∨ q = "medium" ∨ q = "high") :
    (priorityRank p < priorityRank q → prioVal p < prioVal q) ∧
    (priorityRank p = priorityRank q → prioVal p = prioVal q) := by
  rcases hp with rfl | rfl | rfl <;> rcases hq with rfl | rfl | rfl <;> exact (by decide)

/-- The comparator of the default ORDER BY refines the order the
specification states, for tasks whose priorities lie in the enum. -/
theorem defaultLe_implies_spec {a b : Task}
    (ha : a.priority = "low" ∨ a.priority = "medium" ∨ a.priority = "high")
    (hb : b.priority = "low" ∨ b.priority = "medium" ∨ b.priority = "high")
    (h : taskLeDefault a b) : defaultSpecRel a b := by
  unfold taskLeDefault cmpTaskDefault at h
  rcases hdue : cmpOptStr a.dueDate b.dueDate with _ | _ | _
  · unfold defaultSpecRel
    cases hda : a.dueDate with
    | none =>
      cases hdb : b.dueDate with
      | none => rw [hda, hdb] at hdue; exact Ordering.noConfusion hdue
      | some db => rw [hda, hdb] at hdue; exact Ordering.noConfusion hdue
    | some da =>
      cases hdb : b.dueDate with
      | none => exact trivial
      | some db =>
        rw [hda, hdb] at hdue
        exact Or.inl hdue
  · have hdd : a.dueDate = b.dueDate := (cmpOptStr_eq_iff _ _).mp hdue
    rw [hdue, ordThen_eq] at h
    have htie : tieOrdered a b := by
      rcases hpri : cmpNat (priorityRank a.priority) (priorityRank b.priority) with _ | _ | _
      · exact Or.inl ((rank_compat ha hb).1 ((cmpNat_lt_iff _ _).mp hpri))
      · rw [hpri, ordThen_eq] at h
        exact Or.inr ⟨(rank_compat ha hb).2 ((cmpNat_eq_iff _ _).mp hpri), h⟩
      · rw [hpri, ordThen_gt] at h; exact Bool.noConfusion h
    unfold defaultSpecRel
    cases hda : a.dueDate with
    | none =>
      rw [hda] at hdd
      rw [← hdd]
      exact htie
    | some da =>
      rw [hda] at hdd
      rw [← hdd]
      exact Or.inr ⟨rfl, htie⟩
  · rw [hdue, ordThen_gt] at h; exact Bool.noConfusion h

/-- C2: the default-sort List over the whole table returns a permutation
of the stored tasks in which every task with a due date precedes every
task without one, tasks with due dates appear in ascending due date
order, and inside each group ties are broken by priority high, medium,
low and then by newest createdAt first. -/
theorem default_sort_order (s : List Task)
    (hval : ∀ t ∈ s, t.priority ∈ validPriorities) :
    (getTasks allQuery s).Perm s ∧ (getTasks allQuery s).Pairwise defaultSpecRel := by
  have hfil : s.filter (matchesFilters allQuery) = s :=
    List.filter_eq_self.mpr (fun a _ => rfl)
  have hred : getTasks allQuery s
      = (s.filter (matchesFilters allQuery)).insertionSort taskLeDefault := rfl
  constructor
  · rw [hred, hfil]; exact List.perm_insertionSort _ _
  · rw [hred, hfil]
    have hs := List.sorted_insertionSort taskLeDefault s
    refine List.Pairwise.imp_of_mem ?_ hs
    intro a b hamem hbmem hr
    have hav := hval a ((List.perm_insertionSort taskLeDefault s).mem_iff.mp hamem)
    have hbv := hval b ((List.perm_insertionSort taskLeDefault s).mem_iff.mp hbmem)
    exact defaultLe_implies_spec ((mem_validPriorities_iff _).mp hav)
      ((mem_validPriorities_iff _).mp hbv) hr

/-- Task with a due date and low priority, stored after the sample task
but sorted before it by the default order. -/
def dueTask : Task :=
  { id := "t2"
    title := "With due date"
    description := ""
    dueDate := some "2024-05-01T00:00:00.000Z"
    priority := "low"
    tags := []
    completed := false
    createdAt := "2024-01-02T00:00:00.000Z"
    updatedAt := "2024-01-02T00:00:00.000Z" }

theorem default_sort_order_witness :
    (getTasks allQuery [sampleTask, dueTask]).Perm [sampleTask, dueTask] ∧
    (getTasks allQuery [sampleTask, dueTask]).Pairwise defaultSpecRel :=
  default_sort_order [sampleTask, dueTask] (by decide)

end TodoApp
